import Mathlib

/-!
Verification of the content pipeline of a personal blog/portfolio site:
a date-formatting helper (`formatDate`, from `src/unnamed/part_002`) and
two content-collection schemas (`blog` and `projects`, from
`src/src/content.config.ts`, written with the zod validation library).

The JavaScript source is shallowly embedded: strings are Lean `String`s,
JavaScript numbers arising here are modelled as `Option Int` (`none` is
NaN; every consumer of these numbers truncates via ToIntegerOrInfinity,
so the fractional part of a parsed numeric literal is dropped at the
parsing stage), untyped JSON/frontmatter input is an inductive `Json`
type, and zod schema application is a function `Json → Option α`.
-/

namespace Site

/-- Numeric value of a decimal digit character (meaningful when `c.isDigit`). -/
def digitVal (c : Char) : Nat := c.toNat - 48

/-- Value of a list of decimal digit characters, most significant first:
the usual left fold `10*acc + digit`. -/
def decVal (l : List Char) : Nat := l.foldl (fun a c => 10 * a + digitVal c) 0

/-- Helper for `jsSplit`: splits a character list at every occurrence of `sep`,
keeping empty pieces, with `acc` the (reversed) piece being accumulated. -/
def splitCharsAux (sep : Char) : List Char → List Char → List (List Char)
  | [], acc => [acc.reverse]
  | c :: cs, acc =>
    if c = sep then acc.reverse :: splitCharsAux sep cs []
    else splitCharsAux sep cs (c :: acc)

/-- Model of JavaScript `str.split(sep)` for a one-character separator
string, as used by `formatDate` (`dateStr.split('-')`): splits at every
occurrence of the separator and keeps empty pieces; the empty string
yields `[""]`. -/
def jsSplit (s : String) (sep : Char) : List String :=
  (splitCharsAux sep s.toList []).map String.mk

/-- The common JavaScript StrWhiteSpace characters stripped by `Number()`:
tab, LF, VT, FF, CR, space, NBSP and the BOM.  (Other Unicode space
separators also count in JavaScript; no statement in this development
instantiates a string containing one.) -/
def isJsSpace (c : Char) : Bool :=
  c = ' ' || c = '\t' || c = '\n' || c = '\r' || c = '\x0b' ||
  c = '\x0c' || c = ' ' || c = '﻿'

/-- Strip leading and trailing JavaScript whitespace. -/
def trimJs (l : List Char) : List Char :=
  ((l.dropWhile isJsSpace).reverse.dropWhile isJsSpace).reverse

/-- Parse an unsigned JavaScript decimal numeric literal (digits with an
optional fraction part), already truncated toward zero as every consumer
in `formatDate` does (the `Date` constructor applies ToIntegerOrInfinity
to each argument).  Returns `none` for NaN.  The exponent, hexadecimal,
octal, binary and Infinity forms of the StringNumericLiteral grammar are
mapped to `none`; no statement in this development instantiates them. -/
def parsePosNum (l : List Char) : Option Nat :=
  let ip := l.takeWhile Char.isDigit
  let rest := l.dropWhile Char.isDigit
  if rest.isEmpty then
    if ip.isEmpty then none else some (decVal ip)
  else if rest.head? = some '.' && rest.tail.all Char.isDigit &&
      (!ip.isEmpty || !rest.tail.isEmpty) then
    some (decVal ip)
  else none

/-- Model of JavaScript `Number(string)` (composed with the truncation its
consumers apply, see `parsePosNum`): trim whitespace, the empty string is
0, then an optionally signed numeric literal; `none` is NaN. -/
def jsNumberChars (cs : List Char) : Option Int :=
  let t := trimJs cs
  if t.isEmpty then some 0
  else if t.head? = some '+' then (parsePosNum t.tail).map (fun n => (n : Int))
  else if t.head? = some '-' then (parsePosNum t.tail).map (fun n => -(n : Int))
  else (parsePosNum t).map (fun n => (n : Int))

/-- JavaScript `Number()` on a string, see `jsNumberChars`. -/
def jsNumber (s : String) : Option Int := jsNumberChars s.toList

/-- Proleptic Gregorian leap-year test, as used by ECMAScript `Date` and
by zod's date regular expression (for the four-digit years that regular
expression accepts). -/
def isLeap (y : Int) : Bool :=
  (decide (y % 4 = 0) && !decide (y % 100 = 0)) || decide (y % 400 = 0)

/-- Number of days in month `m` (1-12) of year `y`. -/
def daysInMonth (y m : Int) : Int :=
  if m = 2 then 28 + (if isLeap y then 1 else 0)
  else if m = 4 || m = 6 || m = 9 || m = 11 then 30
  else 31

/-- Cumulative days before month 1, 2, ..., 12 in a non-leap year. -/
def cumDaysBeforeMonth : List Int :=
  [0, 31, 59, 90, 120, 151, 181, 212, 243, 273, 304, 334]

/-- Number of leap years in the interval from year 1 to year `y` inclusive
(for `y ≥ 0`), extended to negative arguments by floor division. -/
def leapsToY (y : Int) : Int := y.fdiv 4 - y.fdiv 100 + y.fdiv 400

/-- Day number of the civil date `(y, m, d)` relative to the ECMAScript
epoch 1970-01-01 (day 0); 719162 is the day count from 0001-01-01 to the
epoch.  Used for the Date time-range check. -/
def epochDays (y m d : Int) : Int :=
  365 * (y - 1) + leapsToY (y - 1) + cumDaysBeforeMonth.getD (m - 1).toNat 0 +
    (if 3 ≤ m && isLeap y then 1 else 0) + (d - 1) - 719162

/-- Normalize a day count that overflows the current month by carrying
into following months, fuel-driven (each step consumes at least 28 days
of `d`, so the generous fuel passed by `dayNormalize` never runs out). -/
def carryDays : Nat → Int → Int → Int → Int × Int × Int
  | 0, y, m, d => (y, m, d)
  | fuel + 1, y, m, d =>
    if daysInMonth y m < d then
      if m = 12 then carryDays fuel (y + 1) 1 (d - daysInMonth y m)
      else carryDays fuel y (m + 1) (d - daysInMonth y m)
    else (y, m, d)

/-- Normalize a day count below 1 by borrowing from preceding months,
fuel-driven (each step adds at least 28 to `d`, so the generous fuel
passed by `dayNormalize` never runs out). -/
def borrowDays : Nat → Int → Int → Int → Int × Int × Int
  | 0, y, m, d => (y, m, d)
  | fuel + 1, y, m, d =>
    if d < 1 then
      if m = 1 then borrowDays fuel (y - 1) 12 (d + daysInMonth (y - 1) 12)
      else borrowDays fuel y (m - 1) (d + daysInMonth y (m - 1))
    else (y, m, d)

/-- Roll an arbitrary day count `d` for month `m` (1-12) of year `y` into
a proper civil date, ECMAScript MakeDay's behavior of converting
"day number of the first of the month plus `d - 1`" back into calendar
fields: day overflow carries into later months, day values below 1 borrow
from earlier months. -/
def dayNormalize (y m d : Int) : Int × Int × Int :=
  if d < 1 then borrowDays (d.natAbs + 24) y m d
  else carryDays (d.natAbs + 24) y m d

/-- Model of `new Date(year, month, day)` (ECMAScript MakeDay/MakeDate
followed by reading the local calendar fields back): a year argument from
0 to 99 means 1900 + year; the month argument may be any integer and is
folded into the year by floor division; the day argument rolls over or
under via `dayNormalize`; the result is `none` (an Invalid Date) when the
time value exceeds the Date range of 100 000 000 days from the epoch.
The constructor interprets its arguments as local time and
`toLocaleDateString` reads local calendar fields back, so the host
timezone offset cancels and does not appear in the model (the range check
is modelled at day granularity; the offset could shift it by at most one
day, far from any date this development instantiates). -/
def jsMakeDate (y m d : Int) : Option (Int × Int × Int) :=
  let yr := if 0 ≤ y && y ≤ 99 then 1900 + y else y
  let q := m.fdiv 12
  let ym := yr + q
  let mn := m - 12 * q
  let t := epochDays ym (mn + 1) 1 + (d - 1)
  if t < -100000000 || 100000000 < t then none
  else some (dayNormalize ym (mn + 1) d)

/-- The en-US abbreviated month names used by `toLocaleDateString` with
option month: 'short'. -/
def monthNamesShort : List String :=
  ["Jan", "Feb", "Mar", "Apr", "May", "Jun", "Jul", "Aug", "Sep", "Oct", "Nov", "Dec"]

/-- Two-digit rendering (option day: '2-digit'): pad a one-digit value
with a leading zero. -/
def pad2 (n : Int) : String := if n < 10 then "0" ++ toString n else toString n

/-- Model of `date.toLocaleDateString('en-US', { year: 'numeric',
month: 'short', day: '2-digit' })` applied to a valid date with civil
fields `(y, m, d)`: abbreviated month name, two-digit day, unpadded
year, e.g. "Jun 12, 2023".  (Years below 1 would render with era
handling in ICU; every date this development produces has year ≥ 1.) -/
def renderEnUS (y m d : Int) : String :=
  monthNamesShort.getD (m - 1).toNat "" ++ " " ++ pad2 d ++ ", " ++ toString y

/-- Construct the date from numeric components and format it, the part of
`formatDate` after `split`/`Number`; an Invalid Date renders as the
string "Invalid Date" (`toLocaleDateString` does not throw). -/
def formatComponents (y m d : Int) : String :=
  match jsMakeDate y m d with
  | some (yy, mm, dd) => renderEnUS yy mm dd
  | none => "Invalid Date"

/-- Model of the source function

  export function formatDate(dateStr: string) \x7b
    const [year, month, day] = dateStr.split('-').map(Number);
    const date = new Date(year, month - 1, day);
    return date.toLocaleDateString('en-US', \x7b
      year: 'numeric', month: 'short', day: '2-digit' \x7d);
  \x7d

A missing destructured component is `undefined`, and `undefined`
converted to a number is NaN, hence the `Option.getD _ none`. -/
def formatDate (dateStr : String) : String :=
  let comps := (jsSplit dateStr '-').map jsNumber
  match comps.getD 0 none, comps.getD 1 none, comps.getD 2 none with
  | some y, some m, some d => formatComponents y (m - 1) d
  | _, _, _ => "Invalid Date"

/-- Numeric value of the year component (characters 0-3) of a
YYYY-MM-DD-shaped string. -/
def yearVal (s : String) : Nat := decVal (s.toList.take 4)

/-- Numeric value of the month component (characters 5-6) of a
YYYY-MM-DD-shaped string. -/
def monthVal (s : String) : Nat := decVal ((s.toList.drop 5).take 2)

/-- Numeric value of the day component (characters 8-9) of a
YYYY-MM-DD-shaped string. -/
def dayVal (s : String) : Nat := decVal ((s.toList.drop 8).take 2)

/-- Numeric value of the day-of-month component of a string produced by
`renderEnUS` (characters 4-5, after the three-letter month name and a
space). -/
def outDayVal (s : String) : Nat := decVal ((s.toList.drop 4).take 2)

/-- Syntactic YYYY-MM-DD shape: exactly ten characters, dashes at
positions 4 and 7, decimal digits everywhere else. -/
def isDateShape (s : String) : Bool :=
  let cs := s.toList
  decide (cs.length = 10) && decide (cs.getD 4 ' ' = '-') &&
    decide (cs.getD 7 ' ' = '-') &&
    ([0, 1, 2, 3, 5, 6, 8, 9].all fun i => (cs.getD i ' ').isDigit)

/-- Range validity of the components of a YYYY-MM-DD-shaped string: month
1-12 and day 1 to the length of that month of that year (proleptic
Gregorian, as zod's leap-year alternation implements for four-digit
years). -/
def dateComponentsOk (s : String) : Bool :=
  let y : Int := yearVal s
  let mo : Int := monthVal s
  let d : Int := dayVal s
  decide (1 ≤ mo) && decide (mo ≤ 12) && decide (1 ≤ d) &&
    decide (d ≤ daysInMonth y mo)

/-- Model of zod's `z.string().date()` check: the anchored regular
expression accepts exactly the ten-character YYYY-MM-DD strings whose
month is 01-12 and whose day fits the month, with February 29 accepted
exactly in proleptic-Gregorian leap years. -/
def zodStringDate (s : String) : Bool := isDateShape s && dateComponentsOk s

/-- Untyped JSON / parsed-frontmatter values fed to schema validation. -/
inductive Json where
  | null : Json
  | bool : Bool → Json
  | num : Int → Json
  | str : String → Json
  | arr : List Json → Json
  | obj : List (String × Json) → Json

/-- First binding of a key in an object's field list (a missing key is
`undefined` in JavaScript, here `none`). -/
def lookupField : List (String × Json) → String → Option Json
  | [], _ => none
  | (k, v) :: rest, key => if k = key then some v else lookupField rest key

/-- A validated blog-post frontmatter record, per the `blog` collection
schema. -/
structure BlogPost where
  title : String
  date : String
  tags : List String
deriving DecidableEq

/-- A validated project record, per the `projects` collection schema.
JSON numbers appearing as ids are modelled as integers. -/
structure Project where
  id : Int
  title : String
  description : String
  imagePath : String
  repo : String
  live : String
deriving DecidableEq

/-- Model of `z.string()`: accepts exactly string values (missing fields,
being `none` before this runs, fail). -/
def parseZString : Json → Option String
  | .str s => some s
  | _ => none

/-- Model of `z.string().date()`: a string value passing `zodStringDate`. -/
def parseZStringDate (j : Json) : Option String :=
  match j with
  | .str s => if zodStringDate s then some s else none
  | _ => none

/-- Model of `z.number()`: accepts exactly number values. -/
def parseZNumber : Json → Option Int
  | .num n => some n
  | _ => none

/-- Elementwise string check for `z.array(z.string())`. -/
def parseStringList : List Json → Option (List String)
  | [] => some []
  | j :: js =>
    match j with
    | .str s => (parseStringList js).map (fun l => s :: l)
    | _ => none

/-- Model of `z.array(z.string())`: an array value all of whose elements
are strings. -/
def parseZStringArray : Json → Option (List String)
  | .arr xs => parseStringList xs
  | _ => none

/-- Specification-side predicate: the value is a sequence (array) of
strings, the declared type of a blog post's `tags` field. -/
def isStringSeq : Json → Bool
  | .arr xs => xs.all fun j => match j with | .str _ => true | _ => false
  | _ => false

/-- The URL special schemes that require an authority with a nonempty
host (the file scheme is special too but allows an empty host). -/
def specialSchemes : List String := ["http", "https", "ws", "wss", "ftp"]

/-- Characters a URL scheme may contain after its initial letter. -/
def isSchemeChar (c : Char) : Bool := c.isAlphanum || c = '+' || c = '-' || c = '.'

/-- ASCII lowercasing, applied to URL schemes as the URL parser does. -/
def lowerChar (c : Char) : Char :=
  if 'A' ≤ c && c ≤ 'Z' then Char.ofNat (c.toNat + 32) else c

/-- The WHATWG forbidden host code points (with ':' also excluded here
because the model splits the port off at the first colon). -/
def isForbiddenHostChar (c : Char) : Bool :=
  c = '\x00' || c = '\t' || c = '\n' || c = '\r' || c = ' ' || c = '#' ||
  c = '/' || c = ':' || c = '<' || c = '>' || c = '?' || c = '@' ||
  c = '[' || c = '\\' || c = ']' || c = '^' || c = '|'

/-- Model of the absolute-URL acceptance test performed by zod's
`z.string().url()`, which succeeds exactly when `new URL(value)` does:
the value must have a scheme (a letter followed by scheme characters and
a colon); for the special schemes the remainder must contain, after any
run of slashes, a nonempty host free of forbidden host code points with
an optional numeric port below 65536; other schemes accept any opaque
remainder.  Userinfo, IPv6 host brackets and percent-encoding validation
are outside the modelled fragment; no statement in this development
instantiates them. -/
def isValidURL (s : String) : Bool :=
  let cs := s.toList
  let scheme := cs.takeWhile (fun c => !(c = ':'))
  let rest := cs.dropWhile (fun c => !(c = ':'))
  match rest with
  | [] => false
  | _ :: afterColon =>
    (match scheme with
     | [] => false
     | c :: cs' => c.isAlpha && cs'.all isSchemeChar) &&
    (let schemeStr := String.mk (scheme.map lowerChar)
     if schemeStr = "file" then true
     else if specialSchemes.contains schemeStr then
       let afterSlashes := afterColon.dropWhile (fun c => c = '/' || c = '\\')
       let authority :=
         afterSlashes.takeWhile (fun c => !(c = '/' || c = '\\' || c = '?' || c = '#'))
       let host := authority.takeWhile (fun c => !(c = ':'))
       let portPart := authority.dropWhile (fun c => !(c = ':'))
       !host.isEmpty && host.all (fun c => !isForbiddenHostChar c) &&
         (match portPart with
          | [] => true
          | _ :: p => p.all Char.isDigit && decide (decVal p < 65536))
     else true)

/-- Model of `z.string().url()`: a string value accepted by `isValidURL`. -/
def parseZUrl (j : Json) : Option String :=
  match j with
  | .str s => if isValidURL s then some s else none
  | _ => none

/-- Model of applying the `blog` collection schema

  z.object(\x7b title: z.string(), date: z.string().date(),
             tags: z.array(z.string()) \x7d)

to one parsed frontmatter value: every declared field must be present and
pass its check; unknown keys are stripped; non-object input fails. -/
def blogSchema (j : Json) : Option BlogPost :=
  match j with
  | .obj fields => do
    let t ← (lookupField fields "title").bind parseZString
    let d ← (lookupField fields "date").bind parseZStringDate
    let tg ← (lookupField fields "tags").bind parseZStringArray
    some { title := t, date := d, tags := tg }
  | _ => none

/-- Model of applying the `projects` collection schema

  z.object(\x7b id: z.number(), title: z.string(), description: z.string(),
             imagePath: z.string(), repo: z.string().url(),
             live: z.string().url() \x7d)

to one JSON array element. -/
def projectsSchema (j : Json) : Option Project :=
  match j with
  | .obj fields => do
    let i ← (lookupField fields "id").bind parseZNumber
    let t ← (lookupField fields "title").bind parseZString
    let descr ← (lookupField fields "description").bind parseZString
    let img ← (lookupField fields "imagePath").bind parseZString
    let r ← (lookupField fields "repo").bind parseZUrl
    let l ← (lookupField fields "live").bind parseZUrl
    some { id := i, title := t, description := descr, imagePath := img,
           repo := r, live := l }
  | _ => none

/-- Validate a list of parsed records against a schema, failing the whole
load on the first invalid record, as Astro collection loading does. -/
def loadAll (f : Json → Option α) : List Json → Option (List α)
  | [] => some []
  | j :: js =>
    match f j with
    | none => none
    | some a => (loadAll f js).map (fun l => a :: l)

/-- Model of loading the `blog` collection: the glob loader parses each
matched file's frontmatter and validates it against `blogSchema`. -/
def loadBlog (entries : List Json) : Option (List BlogPost) :=
  loadAll blogSchema entries

/-- Model of loading the `projects` collection: the file loader parses
`projects.json`, which must be an array, and validates every element
against `projectsSchema`. -/
def loadProjects (src : Json) : Option (List Project) :=
  match src with
  | .arr entries => loadAll projectsSchema entries
  | _ => none

/-- A sample well-formed project record (JSON form) used in concrete checks. -/
def sampleProjectJson : Json :=
  Json.obj [("id", Json.num 1), ("title", Json.str "Portfolio"),
    ("description", Json.str "A personal site"), ("imagePath", Json.str "/imgs/site.png"),
    ("repo", Json.str "https://github.com/user/site"), ("live", Json.str "https://example.com")]

/-- The validated record `sampleProjectJson` should load to. -/
def sampleProject : Project :=
  { id := 1, title := "Portfolio", description := "A personal site",
    imagePath := "/imgs/site.png", repo := "https://github.com/user/site",
    live := "https://example.com" }

/-! Helper lemmas about the schema models. -/

theorem parseZStringDate_some {j : Json} {s : String} (h : parseZStringDate j = some s) :
    j = Json.str s ∧ zodStringDate s = true := by
  cases j <;> simp only [parseZStringDate] at h
  case str t =>
    split at h
    · cases h; exact ⟨rfl, by assumption⟩
    · cases h
  all_goals cases h

theorem parseZUrl_some {j : Json} {s : String} (h : parseZUrl j = some s) :
    j = Json.str s ∧ isValidURL s = true := by
  cases j <;> simp only [parseZUrl] at h
  case str t =>
    split at h
    · cases h; exact ⟨rfl, by assumption⟩
    · cases h
  all_goals cases h

theorem parseStringList_none {xs : List Json}
    (h : (xs.all fun j => match j with | .str _ => true | _ => false) = false) :
    parseStringList xs = none := by
  induction xs with
  | nil => simp at h
  | cons j js ih =>
    simp only [List.all_cons, Bool.and_eq_false_iff] at h
    cases j <;> simp only [parseStringList]
    case str t =>
      rcases h with h | h
      · cases h
      · rw [ih h]; rfl

theorem parseZStringArray_none {v : Json} (h : isStringSeq v = false) :
    parseZStringArray v = none := by
  cases v <;> simp only [parseZStringArray]
  case arr xs => exact parseStringList_none h

theorem loadAll_middle_none {α : Type} {f : Json → Option α} {j : Json} (hj : f j = none) :
    ∀ (pre post : List Json), loadAll f (pre ++ j :: post) = none := by
  intro pre post
  induction pre with
  | nil => simp only [List.nil_append, loadAll, hj]
  | cons x xs ih =>
    simp only [List.cons_append, loadAll]
    cases hf : f x
    · rfl
    · show Option.map _ (loadAll f (xs ++ j :: post)) = none
      rw [ih]; rfl

theorem blogSchema_some_date {j : Json} {p : BlogPost} (h : blogSchema j = some p) :
    zodStringDate p.date = true := by
  cases j <;> simp only [blogSchema] at h <;> try cases h
  case obj fields =>
    simp only [bind, Option.bind_eq_some] at h
    obtain ⟨t, ht, d, hd, tg, htg, hp⟩ := h
    obtain ⟨d', hd', hdate⟩ := hd
    obtain ⟨-, hzod⟩ := parseZStringDate_some hdate
    cases hp
    exact hzod

theorem projectsSchema_some_urls {j : Json} {p : Project} (h : projectsSchema j = some p) :
    isValidURL p.repo = true ∧ isValidURL p.live = true := by
  cases j <;> simp only [projectsSchema] at h <;> try cases h
  case obj fields =>
    simp only [bind, Option.bind_eq_some] at h
    obtain ⟨i, hi, t, ht, descr, hdescr, img, himg, r, hr, l, hl, hp⟩ := h
    obtain ⟨r', -, hrep⟩ := hr
    obtain ⟨l', -, hliv⟩ := hl
    obtain ⟨-, hru⟩ := parseZUrl_some hrep
    obtain ⟨-, hlu⟩ := parseZUrl_some hliv
    cases hp
    exact ⟨hru, hlu⟩

/-! The claim theorems about the content schemas. -/

/-- C2: formatDate applied to the input "2023-06-12" returns the string
"Jun 12, 2023" (en-US locale, abbreviated month name, two-digit day,
four-digit year). -/
theorem formatDate_june_example : formatDate "2023-06-12" = "Jun 12, 2023" := by decide

/-- C3: validation of a BlogPost record's date field accepts only strings
in YYYY-MM-DD calendar-date syntax that denote valid calendar dates
(every validated record's date has the syntactic shape and in-range,
month-length-respecting components); in particular a record with date
"2023-13-01" (month 13) fails validation. -/
theorem blog_date_validation :
    (∀ j p, blogSchema j = some p →
      isDateShape p.date = true ∧ dateComponentsOk p.date = true) ∧
    blogSchema (Json.obj [("title", Json.str "Post"), ("date", Json.str "2023-13-01"),
      ("tags", Json.arr [])]) = none := by
  constructor
  · intro j p h
    have hz := blogSchema_some_date h
    simpa [zodStringDate, Bool.and_eq_true] using hz
  · decide

/-- Witness for C3: a concrete record passes validation, so the universal
part of the theorem is not vacuous. -/
theorem blog_date_validation_witness :
    isDateShape ({ title := "T", date := "2023-06-12", tags := [] } : BlogPost).date = true ∧
      dateComponentsOk ({ title := "T", date := "2023-06-12", tags := [] } : BlogPost).date = true :=
  blog_date_validation.1
    (Json.obj [("title", Json.str "T"), ("date", Json.str "2023-06-12"), ("tags", Json.arr [])])
    { title := "T", date := "2023-06-12", tags := [] } (by decide)

/-- C4 counterexample: the schemas use plain z.string() with no
nonemptiness constraint, so a BlogPost with empty title and a Project
with empty title and description all pass validation, contradicting the
claim that records with empty required text fields fail. -/
theorem empty_text_accepted :
    blogSchema (Json.obj [("title", Json.str ""), ("date", Json.str "2023-06-12"),
      ("tags", Json.arr [])]) =
      some { title := "", date := "2023-06-12", tags := [] } ∧
    projectsSchema (Json.obj [("id", Json.num 1), ("title", Json.str ""),
      ("description", Json.str ""), ("imagePath", Json.str "/img/p.png"),
      ("repo", Json.str "https://example.com/repo"), ("live", Json.str "https://example.com")]) =
      some { id := 1, title := "", description := "", imagePath := "/img/p.png",
             repo := "https://example.com/repo", live := "https://example.com" } := by
  constructor <;> decide

/-- C4 amended: the title and description fields are validated only for
being strings; any string, including the empty string, is accepted
unchanged (other fields being well-formed). -/
theorem text_fields_checked_as_strings_only (t descr : String) (i : Int) :
    blogSchema (Json.obj [("title", Json.str t), ("date", Json.str "2023-06-12"),
      ("tags", Json.arr [])]) = some { title := t, date := "2023-06-12", tags := [] } ∧
    projectsSchema (Json.obj [("id", Json.num i), ("title", Json.str t),
      ("description", Json.str descr), ("imagePath", Json.str "/img/p.png"),
      ("repo", Json.str "https://example.com/repo"), ("live", Json.str "https://example.com")]) =
      some { id := i, title := t, description := descr, imagePath := "/img/p.png",
             repo := "https://example.com/repo", live := "https://example.com" } :=
  ⟨rfl, rfl⟩

/-- C5: every record the projects schema validates has repo and live
fields accepted by the URL well-formedness check, i.e. a value rejected
by that check makes validation fail; in particular a record with repo
"not-a-url" fails validation. -/
theorem project_urls_validated :
    (∀ j p, projectsSchema j = some p →
      isValidURL p.repo = true ∧ isValidURL p.live = true) ∧
    projectsSchema (Json.obj [("id", Json.num 1), ("title", Json.str "Title"),
      ("description", Json.str "Desc"), ("imagePath", Json.str "/img/p.png"),
      ("repo", Json.str "not-a-url"), ("live", Json.str "https://example.com")]) = none :=
  ⟨fun _ _ h => projectsSchema_some_urls h, by decide⟩

/-- Witness for C5: a concrete record passes validation, so the universal
part of the theorem is not vacuous. -/
theorem project_urls_validated_witness :
    isValidURL sampleProject.repo = true ∧ isValidURL sampleProject.live = true :=
  project_urls_validated.1 sampleProjectJson sampleProject (by decide)

/-- C6: a blog record whose title field is missing, or whose tags field
is present but is not a sequence of strings, fails schema validation, and
loading any blog collection containing such a record fails. -/
theorem blog_missing_title_or_bad_tags_fails :
    ∀ (fields : List (String × Json)) (pre post : List Json),
      (lookupField fields "title" = none ∨
        (∃ v, lookupField fields "tags" = some v ∧ isStringSeq v = false)) →
      blogSchema (Json.obj fields) = none ∧
        loadBlog (pre ++ Json.obj fields :: post) = none := by
  intro fields pre post h
  have hnone : blogSchema (Json.obj fields) = none := by
    rcases h with h | ⟨v, hv, hbad⟩
    · simp [blogSchema, h]
    · have htags : (lookupField fields "tags").bind parseZStringArray = none := by
        rw [hv]
        exact parseZStringArray_none hbad
      cases ht : (lookupField fields "title").bind parseZString with
      | none => simp [blogSchema, ht]
      | some t =>
        cases hd : (lookupField fields "date").bind parseZStringDate with
        | none => simp [blogSchema, ht, hd]
        | some d => simp [blogSchema, ht, hd, htags]
  exact ⟨hnone, loadAll_middle_none hnone pre post⟩

/-- Witness for C6: a concrete record with no title fails validation and
fails the collection load. -/
theorem blog_missing_title_fails_witness :
    blogSchema (Json.obj [("date", Json.str "2023-06-12"), ("tags", Json.arr [])]) = none ∧
      loadBlog ([] ++ Json.obj [("date", Json.str "2023-06-12"), ("tags", Json.arr [])] :: []) =
        none :=
  blog_missing_title_or_bad_tags_fails
    [("date", Json.str "2023-06-12"), ("tags", Json.arr [])] [] [] (Or.inl rfl)

/-- C7: a project record all of whose fields satisfy the schema (numeric
id, string title, description and imagePath, URL-valid repo and live)
validates successfully with every field unchanged, and loading a
collection of such records succeeds. -/
theorem project_wellformed_roundtrip {i : Int} {t descr img r l : String}
    (hr : isValidURL r = true) (hl : isValidURL l = true) :
    projectsSchema (Json.obj [("id", Json.num i), ("title", Json.str t),
      ("description", Json.str descr), ("imagePath", Json.str img),
      ("repo", Json.str r), ("live", Json.str l)]) =
      some { id := i, title := t, description := descr, imagePath := img,
             repo := r, live := l } ∧
    loadProjects (Json.arr [Json.obj [("id", Json.num i), ("title", Json.str t),
      ("description", Json.str descr), ("imagePath", Json.str img),
      ("repo", Json.str r), ("live", Json.str l)]]) =
      some [{ id := i, title := t, description := descr, imagePath := img,
              repo := r, live := l }] := by
  have h1 : projectsSchema (Json.obj [("id", Json.num i), ("title", Json.str t),
      ("description", Json.str descr), ("imagePath", Json.str img),
      ("repo", Json.str r), ("live", Json.str l)]) =
      some { id := i, title := t, description := descr, imagePath := img,
             repo := r, live := l } := by
    simp [projectsSchema, lookupField, parseZNumber, parseZString, parseZUrl, hr, hl]
  refine ⟨h1, ?_⟩
  simp [loadProjects, loadAll, h1]

/-- Witness for C7 at a concrete well-formed record. -/
theorem project_wellformed_roundtrip_witness :
    projectsSchema (Json.obj [("id", Json.num 1), ("title", Json.str "Portfolio"),
      ("description", Json.str "A personal site"), ("imagePath", Json.str "/imgs/site.png"),
      ("repo", Json.str "https://github.com/user/site"),
      ("live", Json.str "https://example.com")]) =
      some { id := 1, title := "Portfolio", description := "A personal site",
             imagePath := "/imgs/site.png", repo := "https://github.com/user/site",
             live := "https://example.com" } ∧
    loadProjects (Json.arr [Json.obj [("id", Json.num 1), ("title", Json.str "Portfolio"),
      ("description", Json.str "A personal site"), ("imagePath", Json.str "/imgs/site.png"),
      ("repo", Json.str "https://github.com/user/site"),
      ("live", Json.str "https://example.com")]]) =
      some [{ id := 1, title := "Portfolio", description := "A personal site",
              imagePath := "/imgs/site.png", repo := "https://github.com/user/site",
              live := "https://example.com" }] :=
  project_wellformed_roundtrip (by decide) (by decide)

/-- C8: loading the projects collection is a deterministic function of
the parsed source contents: two loads of the same value yield sequences
that are deep-equal, element by element and field by field. -/
theorem loadProjects_deterministic :
    ∀ (src : Json) (l₁ l₂ : List Project),
      loadProjects src = some l₁ → loadProjects src = some l₂ →
      l₁.length = l₂.length ∧
        ∀ (i : Nat) (h₁ : i < l₁.length) (h₂ : i < l₂.length),
          (l₁.get ⟨i, h₁⟩).id = (l₂.get ⟨i, h₂⟩).id ∧
          (l₁.get ⟨i, h₁⟩).title = (l₂.get ⟨i, h₂⟩).title ∧
          (l₁.get ⟨i, h₁⟩).description = (l₂.get ⟨i, h₂⟩).description ∧
          (l₁.get ⟨i, h₁⟩).imagePath = (l₂.get ⟨i, h₂⟩).imagePath ∧
          (l₁.get ⟨i, h₁⟩).repo = (l₂.get ⟨i, h₂⟩).repo ∧
          (l₁.get ⟨i, h₁⟩).live = (l₂.get ⟨i, h₂⟩).live := by
  intro src l₁ l₂ h₁ h₂
  rw [h₁] at h₂
  have : l₁ = l₂ := Option.some_inj.mp h₂
  subst this
  exact ⟨rfl, fun i hi₁ hi₂ => ⟨rfl, rfl, rfl, rfl, rfl, rfl⟩⟩

/-- Witness for C8 at a concrete one-record collection. -/
theorem loadProjects_deterministic_witness :
    [sampleProject].length = [sampleProject].length ∧
      ∀ (i : Nat) (h₁ : i < [sampleProject].length) (h₂ : i < [sampleProject].length),
        ([sampleProject].get ⟨i, h₁⟩).id = ([sampleProject].get ⟨i, h₂⟩).id ∧
        ([sampleProject].get ⟨i, h₁⟩).title = ([sampleProject].get ⟨i, h₂⟩).title ∧
        ([sampleProject].get ⟨i, h₁⟩).description = ([sampleProject].get ⟨i, h₂⟩).description ∧
        ([sampleProject].get ⟨i, h₁⟩).imagePath = ([sampleProject].get ⟨i, h₂⟩).imagePath ∧
        ([sampleProject].get ⟨i, h₁⟩).repo = ([sampleProject].get ⟨i, h₂⟩).repo ∧
        ([sampleProject].get ⟨i, h₁⟩).live = ([sampleProject].get ⟨i, h₂⟩).live :=
  loadProjects_deterministic (Json.arr [sampleProjectJson]) [sampleProject] [sampleProject]
    (by decide) (by decide)

/-! Helper lemmas for the formatDate theorems. -/

/-! Character and digit helper lemmas. -/

theorem isDigit_toNat {c : Char} (h : c.isDigit = true) : 48 ≤ c.toNat ∧ c.toNat ≤ 57 := by
  simpa [Char.isDigit] using h

theorem digitVal_le_nine {c : Char} (h : c.isDigit = true) : digitVal c ≤ 9 := by
  have hb := isDigit_toNat h
  unfold digitVal
  omega

theorem isDigit_ne_dash {c : Char} (h : c.isDigit = true) : ¬(c = '-') := by
  intro hc; subst hc; exact absurd h (by decide)

theorem isDigit_ne_plus {c : Char} (h : c.isDigit = true) : ¬(c = '+') := by
  intro hc; subst hc; exact absurd h (by decide)

theorem isDigit_not_space {c : Char} (h : c.isDigit = true) : isJsSpace c = false := by
  cases hs : isJsSpace c
  · rfl
  · exfalso
    simp only [isJsSpace, Bool.or_eq_true, decide_eq_true_eq] at hs
    rcases hs with ((((((rfl | rfl) | rfl) | rfl) | rfl) | rfl) | rfl) | rfl <;>
      exact absurd h (by decide)

theorem char_eq_of_digitVal {c : Char} (h : c.isDigit = true) {k : Nat} (hk : digitVal c = k) :
    c = Char.ofNat (48 + k) := by
  have hb := isDigit_toNat h
  have hn : c.toNat = 48 + k := by
    unfold digitVal at hk
    omega
  calc c = Char.ofNat c.toNat := (Char.ofNat_toNat c).symm
    _ = Char.ofNat (48 + k) := by rw [hn]


theorem splitCharsAux_no_sep {sep : Char} :
    ∀ (l acc : List Char), (∀ c ∈ l, ¬(c = sep)) →
      splitCharsAux sep l acc = [acc.reverse ++ l] := by
  intro l
  induction l with
  | nil => intro acc _; simp [splitCharsAux]
  | cons c cs ih =>
    intro acc h
    have hc : ¬(c = sep) := h c (by simp)
    rw [splitCharsAux, if_neg hc, ih (c :: acc) (fun x hx => h x (by simp [hx]))]
    simp

theorem splitCharsAux_sep_append {sep : Char} :
    ∀ (l₁ rest acc : List Char), (∀ c ∈ l₁, ¬(c = sep)) →
      splitCharsAux sep (l₁ ++ sep :: rest) acc =
        (acc.reverse ++ l₁) :: splitCharsAux sep rest [] := by
  intro l₁
  induction l₁ with
  | nil => intro rest acc _; simp [splitCharsAux]
  | cons c cs ih =>
    intro rest acc h
    have hc : ¬(c = sep) := h c (by simp)
    rw [List.cons_append, splitCharsAux, if_neg hc,
      ih rest (c :: acc) (fun x hx => h x (by simp [hx]))]
    simp

theorem dropWhile_all_false {p : α → Bool} :
    ∀ {l : List α}, (∀ c ∈ l, p c = false) → l.dropWhile p = l := by
  intro l h
  cases l with
  | nil => rfl
  | cons c cs => rw [List.dropWhile_cons, if_neg (by simp [h c (by simp)])]

theorem takeWhile_all_true {p : α → Bool} :
    ∀ {l : List α}, (∀ c ∈ l, p c = true) → l.takeWhile p = l := by
  intro l h
  induction l with
  | nil => rfl
  | cons c cs ih =>
    rw [List.takeWhile_cons, if_pos (by simp [h c (by simp)]), ih (fun x hx => h x (by simp [hx]))]

theorem dropWhile_all_true {p : α → Bool} :
    ∀ {l : List α}, (∀ c ∈ l, p c = true) → l.dropWhile p = [] := by
  intro l h
  induction l with
  | nil => rfl
  | cons c cs ih =>
    rw [List.dropWhile_cons, if_pos (by simp [h c (by simp)])]
    exact ih (fun x hx => h x (by simp [hx]))

theorem trimJs_digits {l : List Char} (h : ∀ c ∈ l, c.isDigit = true) : trimJs l = l := by
  unfold trimJs
  have h1 : l.dropWhile isJsSpace = l :=
    dropWhile_all_false (fun c hc => isDigit_not_space (h c hc))
  rw [h1]
  have h2 : l.reverse.dropWhile isJsSpace = l.reverse :=
    dropWhile_all_false (fun c hc => isDigit_not_space (h c (List.mem_reverse.mp hc)))
  rw [h2, List.reverse_reverse]

theorem jsNumberChars_digits :
    ∀ {l : List Char}, l ≠ [] → (∀ c ∈ l, c.isDigit = true) →
      jsNumberChars l = some ((decVal l : Nat) : Int) := by
  intro l hne h
  unfold jsNumberChars
  rw [trimJs_digits h]
  rcases l with _ | ⟨c, cs⟩
  · exact absurd rfl hne
  · have hcd : c.isDigit = true := h c (by simp)
    rw [if_neg (by simp)]
    rw [if_neg (by simp [isDigit_ne_plus hcd])]
    rw [if_neg (by simp [isDigit_ne_dash hcd])]
    unfold parsePosNum
    rw [takeWhile_all_true h, dropWhile_all_true h]
    simp


theorem exists_cons_of_len_succ {α : Type} {l : List α} {n : Nat} (h : l.length = n + 1) :
    ∃ a t, l = a :: t ∧ t.length = n := by
  cases l with
  | nil => simp at h
  | cons a t => exact ⟨a, t, rfl, by simpa using h⟩

theorem len10_destruct {l : List Char} (h : l.length = 10) :
    ∃ c0 c1 c2 c3 c4 c5 c6 c7 c8 c9,
      l = [c0, c1, c2, c3, c4, c5, c6, c7, c8, c9] := by
  obtain ⟨c0, l, rfl, h⟩ := exists_cons_of_len_succ (l := l) (n := 9) (by omega)
  obtain ⟨c1, l, rfl, h⟩ := exists_cons_of_len_succ (l := l) (n := 8) (by omega)
  obtain ⟨c2, l, rfl, h⟩ := exists_cons_of_len_succ (l := l) (n := 7) (by omega)
  obtain ⟨c3, l, rfl, h⟩ := exists_cons_of_len_succ (l := l) (n := 6) (by omega)
  obtain ⟨c4, l, rfl, h⟩ := exists_cons_of_len_succ (l := l) (n := 5) (by omega)
  obtain ⟨c5, l, rfl, h⟩ := exists_cons_of_len_succ (l := l) (n := 4) (by omega)
  obtain ⟨c6, l, rfl, h⟩ := exists_cons_of_len_succ (l := l) (n := 3) (by omega)
  obtain ⟨c7, l, rfl, h⟩ := exists_cons_of_len_succ (l := l) (n := 2) (by omega)
  obtain ⟨c8, l, rfl, h⟩ := exists_cons_of_len_succ (l := l) (n := 1) (by omega)
  obtain ⟨c9, l, rfl, h⟩ := exists_cons_of_len_succ (l := l) (n := 0) (by omega)
  have hnil : l = [] := List.length_eq_zero.mp (by omega)
  subst hnil
  exact ⟨c0, c1, c2, c3, c4, c5, c6, c7, c8, c9, rfl⟩

theorem formatDate_shaped {s : String} (h : isDateShape s = true) :
    formatDate s =
      formatComponents ((yearVal s : Nat) : Int) (((monthVal s : Nat) : Int) - 1)
        ((dayVal s : Nat) : Int) := by
  simp only [isDateShape, Bool.and_eq_true, decide_eq_true_eq, List.all_eq_true] at h
  obtain ⟨⟨⟨hlen, h4⟩, h7⟩, hdig⟩ := h
  obtain ⟨c0, c1, c2, c3, c4, c5, c6, c7, c8, c9, hl⟩ := len10_destruct hlen
  rw [hl] at h4 h7 hdig
  simp only [List.getD, List.get?] at h4 h7
  have d0 : c0.isDigit = true := by have := hdig 0 (by simp); simpa using this
  have d1 : c1.isDigit = true := by have := hdig 1 (by simp); simpa using this
  have d2 : c2.isDigit = true := by have := hdig 2 (by simp); simpa using this
  have d3 : c3.isDigit = true := by have := hdig 3 (by simp); simpa using this
  have d5 : c5.isDigit = true := by have := hdig 5 (by simp); simpa using this
  have d6 : c6.isDigit = true := by have := hdig 6 (by simp); simpa using this
  have d8 : c8.isDigit = true := by have := hdig 8 (by simp); simpa using this
  have d9 : c9.isDigit = true := by have := hdig 9 (by simp); simpa using this
  subst h4 h7
  have hsplit : jsSplit s '-' =
      [String.mk [c0, c1, c2, c3], String.mk [c5, c6], String.mk [c8, c9]] := by
    unfold jsSplit
    rw [hl]
    have e1 : ([c0, c1, c2, c3, '-', c5, c6, '-', c8, c9] : List Char) =
        [c0, c1, c2, c3] ++ '-' :: ([c5, c6] ++ '-' :: [c8, c9]) := rfl
    rw [e1]
    rw [splitCharsAux_sep_append _ _ _ (by
      intro x hx
      simp only [List.mem_cons, List.not_mem_nil, or_false] at hx
      rcases hx with rfl | rfl | rfl | rfl
      · exact isDigit_ne_dash d0
      · exact isDigit_ne_dash d1
      · exact isDigit_ne_dash d2
      · exact isDigit_ne_dash d3)]
    rw [splitCharsAux_sep_append _ _ _ (by
      intro x hx
      simp only [List.mem_cons, List.not_mem_nil, or_false] at hx
      rcases hx with rfl | rfl
      · exact isDigit_ne_dash d5
      · exact isDigit_ne_dash d6)]
    rw [splitCharsAux_no_sep _ _ (by
      intro x hx
      simp only [List.mem_cons, List.not_mem_nil, or_false] at hx
      rcases hx with rfl | rfl
      · exact isDigit_ne_dash d8
      · exact isDigit_ne_dash d9)]
    simp
  have hy : jsNumber (String.mk [c0, c1, c2, c3]) =
      some ((decVal [c0, c1, c2, c3] : Nat) : Int) := by
    show jsNumberChars [c0, c1, c2, c3] = _
    apply jsNumberChars_digits (by simp)
    intro c hc
    simp only [List.mem_cons, List.not_mem_nil, or_false] at hc
    rcases hc with rfl | rfl | rfl | rfl
    · exact d0
    · exact d1
    · exact d2
    · exact d3
  have hm : jsNumber (String.mk [c5, c6]) = some ((decVal [c5, c6] : Nat) : Int) := by
    show jsNumberChars [c5, c6] = _
    apply jsNumberChars_digits (by simp)
    intro c hc
    simp only [List.mem_cons, List.not_mem_nil, or_false] at hc
    rcases hc with rfl | rfl
    · exact d5
    · exact d6
  have hd : jsNumber (String.mk [c8, c9]) = some ((decVal [c8, c9] : Nat) : Int) := by
    show jsNumberChars [c8, c9] = _
    apply jsNumberChars_digits (by simp)
    intro c hc
    simp only [List.mem_cons, List.not_mem_nil, or_false] at hc
    rcases hc with rfl | rfl
    · exact d8
    · exact d9
  have hyv : yearVal s = decVal [c0, c1, c2, c3] := by
    unfold yearVal
    rw [hl]
    rfl
  have hmv : monthVal s = decVal [c5, c6] := by
    unfold monthVal
    rw [hl]
    rfl
  have hdv : dayVal s = decVal [c8, c9] := by
    unfold dayVal
    rw [hl]
    rfl
  rw [formatDate, hsplit]
  simp only [List.map_cons, List.map_nil, hy, hm, hd, List.getD, List.get?, Option.getD_some]
  rw [hyv, hmv, hdv]


theorem decVal_two (a b : Char) : decVal [a, b] = 10 * digitVal a + digitVal b := by
  simp [decVal, List.foldl]

theorem decVal_four (a b c d : Char) :
    decVal [a, b, c, d] =
      1000 * digitVal a + 100 * digitVal b + 10 * digitVal c + digitVal d := by
  simp [decVal, List.foldl]
  ring

theorem toList_append (a b : String) : (a ++ b).toList = a.toList ++ b.toList := rfl

theorem pad2_facts :
    ∀ d : Nat, d < 100 →
      ((pad2 (d : Int)).toList.length = 2 ∧ decVal ((pad2 (d : Int)).toList) = d) := by decide

theorem fdiv_nonneg_small {a : Int} (h0 : 0 ≤ a) (h12 : a < 12) : a.fdiv 12 = 0 := by
  rw [Int.fdiv_eq_ediv _ (by omega)]
  exact Int.ediv_eq_zero_of_lt h0 h12

theorem leapsToY_bound {x : Int} (h0 : 0 ≤ x) (h2 : x ≤ 10020) :
    0 ≤ leapsToY x ∧ leapsToY x ≤ 2505 := by
  unfold leapsToY
  rw [Int.fdiv_eq_ediv _ (by omega), Int.fdiv_eq_ediv _ (by omega),
    Int.fdiv_eq_ediv _ (by omega)]
  omega

theorem cumDays_bound {m : Int} (h1 : 1 ≤ m) (h2 : m ≤ 12) :
    0 ≤ cumDaysBeforeMonth.getD (m - 1).toNat 0 ∧
      cumDaysBeforeMonth.getD (m - 1).toNat 0 ≤ 334 := by
  interval_cases m <;> decide

theorem epochDays_day1_bound {y m : Int} (h0 : 1 ≤ y) (h1 : y ≤ 10020)
    (hm1 : 1 ≤ m) (hm2 : m ≤ 12) :
    -800000 ≤ epochDays y m 1 ∧ epochDays y m 1 ≤ 4000000 := by
  unfold epochDays
  have hcum := cumDays_bound hm1 hm2
  have hleap := leapsToY_bound (x := y - 1) (by omega) (by omega)
  have hif : (if (decide (3 ≤ m) && isLeap y) = true then (1:Int) else 0) = 0 ∨
      (if (decide (3 ≤ m) && isLeap y) = true then (1:Int) else 0) = 1 := by
    split
    · right; rfl
    · left; rfl
  omega

theorem carryDays_stop {fuel : Nat} {y m d : Int} (h : ¬(daysInMonth y m < d)) :
    carryDays fuel y m d = (y, m, d) := by
  cases fuel with
  | zero => rfl
  | succ n => rw [carryDays, if_neg h]

theorem dayNormalize_id {y m d : Int} (h1 : 1 ≤ d) (h2 : d ≤ daysInMonth y m) :
    dayNormalize y m d = (y, m, d) := by
  unfold dayNormalize
  rw [if_neg (by omega), carryDays_stop (by omega)]

theorem isLeap_shift {y : Int} (h1 : 1 ≤ y) (h2 : y ≤ 99) : isLeap (1900 + y) = isLeap y := by
  unfold isLeap
  have e4 : (1900 + y) % 4 = y % 4 := by omega
  have e100 : (1900 + y) % 100 = y := by omega
  have e400 : (1900 + y) % 400 = 300 + y := by omega
  have e100b : y % 100 = y := by omega
  have e400b : y % 400 = y := by omega
  rw [e4, e100, e400, e100b, e400b,
    decide_eq_false (show ¬(y = 0) by omega),
    decide_eq_false (show ¬(300 + y = 0) by omega)]

theorem daysInMonth_indep (y z : Int) {m : Int} (hm : ¬(m = 2)) :
    daysInMonth y m = daysInMonth z m := by
  unfold daysInMonth
  rw [if_neg hm, if_neg hm]

theorem daysInMonth_shift {y m : Int} (h1 : 1 ≤ y) (h2 : y ≤ 99) :
    daysInMonth (1900 + y) m = daysInMonth y m := by
  unfold daysInMonth
  rw [isLeap_shift h1 h2]

theorem daysInMonth_le31 {y m : Int} : daysInMonth y m ≤ 31 := by
  unfold daysInMonth
  split
  · split <;> omega
  · split <;> omega

theorem daysInMonth_ge28 {y m : Int} : 28 ≤ daysInMonth y m := by
  unfold daysInMonth
  split
  · split <;> omega
  · split <;> omega


theorem jsMakeDate_some {y w d : Int} (hy0 : 0 ≤ y) (hy1 : y ≤ 9999)
    (hw0 : -1 ≤ w) (hw1 : w ≤ 98) (hd0 : 0 ≤ d) (hd1 : d ≤ 99) :
    jsMakeDate y w d =
      some (dayNormalize ((if 0 ≤ y && y ≤ 99 then 1900 + y else y) + w.fdiv 12)
        (w - 12 * w.fdiv 12 + 1) d) := by
  simp only [jsMakeDate]
  rw [Int.fdiv_eq_ediv _ (by omega)]
  have e12 := Int.ediv_add_emod w 12
  have r12a := Int.emod_nonneg w (show (12:Int) ≠ 0 by omega)
  have r12b := Int.emod_lt_of_pos w (show (0:Int) < 12 by omega)
  cases hYb : (decide (0 ≤ y) && decide (y ≤ 99)) with
  | true =>
    have hprops : 0 ≤ y ∧ y ≤ 99 := by simpa using hYb
    rw [if_pos rfl]
    have hb := epochDays_day1_bound (y := 1900 + y + w / 12)
      (m := w - 12 * (w / 12) + 1) (by omega) (by omega) (by omega) (by omega)
    split
    · rename_i hcond
      exfalso
      simp only [Bool.or_eq_true, decide_eq_true_eq] at hcond
      omega
    · rfl
  | false =>
    have hy100 : 100 ≤ y := by
      by_contra hc
      push_neg at hc
      rw [decide_eq_true hy0, decide_eq_true (show y ≤ 99 by omega)] at hYb
      simp at hYb
    rw [if_neg (by decide : ¬(false = true))]
    have hb := epochDays_day1_bound (y := y + w / 12)
      (m := w - 12 * (w / 12) + 1) (by omega) (by omega) (by omega) (by omega)
    split
    · rename_i hcond
      exfalso
      simp only [Bool.or_eq_true, decide_eq_true_eq] at hcond
      omega
    · rfl

theorem jsMakeDate_valid_month {y m d : Int} (hy0 : 0 ≤ y) (hy1 : y ≤ 9999)
    (hm1 : 1 ≤ m) (hm2 : m ≤ 12) (hd0 : 0 ≤ d) (hd1 : d ≤ 99) :
    jsMakeDate y (m - 1) d =
      some (dayNormalize (if 0 ≤ y && y ≤ 99 then 1900 + y else y) m d) := by
  rw [jsMakeDate_some hy0 hy1 (by omega) (by omega) hd0 hd1]
  have hq : (m - 1).fdiv 12 = 0 := fdiv_nonneg_small (by omega) (by omega)
  rw [hq]
  have e1 : (m - 1 - 12 * 0 + 1 : Int) = m := by ring
  rw [e1, add_zero]

theorem month_name_len3 {m : Int} (hm1 : 1 ≤ m) (hm2 : m ≤ 12) :
    (monthNamesShort.getD (m - 1).toNat "").toList.length = 3 := by
  interval_cases m <;> rfl

theorem outDayVal_render {y m : Int} (hm1 : 1 ≤ m) (hm2 : m ≤ 12) {d : Nat} (hd : d < 100) :
    outDayVal (renderEnUS y m (d : Int)) = d := by
  obtain ⟨hlen2, hdec⟩ := pad2_facts d hd
  unfold outDayVal renderEnUS
  have heq : ((monthNamesShort.getD (m - 1).toNat "" ++ " " ++ pad2 (d : Int) ++ ", " ++
      toString y) : String).toList =
      ((monthNamesShort.getD (m - 1).toNat "").toList ++ [' ']) ++
        ((pad2 (d : Int)).toList ++ ([',', ' '] ++ (toString y).toList)) := by
    simp only [toList_append, List.append_assoc]
    rfl
  rw [heq]
  have hlen4 : ((monthNamesShort.getD (m - 1).toNat "").toList ++ [' ']).length = 4 := by
    rw [List.length_append, month_name_len3 hm1 hm2]
    rfl
  rw [List.drop_left' hlen4]
  rw [List.take_left' hlen2]
  exact hdec


theorem shape_component_facts {s : String} (h : isDateShape s = true) :
    yearVal s ≤ 9999 ∧ monthVal s ≤ 99 ∧ dayVal s ≤ 99 ∧
      (yearVal s = 0 → monthVal s = 2 → dayVal s = 29 → s = "0000-02-29") := by
  simp only [isDateShape, Bool.and_eq_true, decide_eq_true_eq, List.all_eq_true] at h
  obtain ⟨⟨⟨hlen, h4⟩, h7⟩, hdig⟩ := h
  obtain ⟨c0, c1, c2, c3, c4, c5, c6, c7, c8, c9, hl⟩ := len10_destruct hlen
  rw [hl] at h4 h7 hdig
  simp only [List.getD, List.get?] at h4 h7
  have d0 : c0.isDigit = true := by have := hdig 0 (by simp); simpa using this
  have d1 : c1.isDigit = true := by have := hdig 1 (by simp); simpa using this
  have d2 : c2.isDigit = true := by have := hdig 2 (by simp); simpa using this
  have d3 : c3.isDigit = true := by have := hdig 3 (by simp); simpa using this
  have d5 : c5.isDigit = true := by have := hdig 5 (by simp); simpa using this
  have d6 : c6.isDigit = true := by have := hdig 6 (by simp); simpa using this
  have d8 : c8.isDigit = true := by have := hdig 8 (by simp); simpa using this
  have d9 : c9.isDigit = true := by have := hdig 9 (by simp); simpa using this
  subst h4 h7
  have hyv : yearVal s = decVal [c0, c1, c2, c3] := by
    unfold yearVal
    rw [hl]
    rfl
  have hmv : monthVal s = decVal [c5, c6] := by
    unfold monthVal
    rw [hl]
    rfl
  have hdv : dayVal s = decVal [c8, c9] := by
    unfold dayVal
    rw [hl]
    rfl
  have hy4 := decVal_four c0 c1 c2 c3
  have hm2c := decVal_two c5 c6
  have hd2c := decVal_two c8 c9
  have b0 := digitVal_le_nine d0
  have b1 := digitVal_le_nine d1
  have b2 := digitVal_le_nine d2
  have b3 := digitVal_le_nine d3
  have b5 := digitVal_le_nine d5
  have b6 := digitVal_le_nine d6
  have b8 := digitVal_le_nine d8
  have b9 := digitVal_le_nine d9
  refine ⟨by rw [hyv, hy4]; omega, by rw [hmv, hm2c]; omega, by rw [hdv, hd2c]; omega, ?_⟩
  intro hy0 hmo2 hd29
  rw [hyv, hy4] at hy0
  rw [hmv, hm2c] at hmo2
  rw [hdv, hd2c] at hd29
  have e0 : c0 = Char.ofNat (48 + 0) := char_eq_of_digitVal d0 (by omega)
  have e1 : c1 = Char.ofNat (48 + 0) := char_eq_of_digitVal d1 (by omega)
  have e2 : c2 = Char.ofNat (48 + 0) := char_eq_of_digitVal d2 (by omega)
  have e3 : c3 = Char.ofNat (48 + 0) := char_eq_of_digitVal d3 (by omega)
  have e5 : c5 = Char.ofNat (48 + 0) := char_eq_of_digitVal d5 (by omega)
  have e6 : c6 = Char.ofNat (48 + 2) := char_eq_of_digitVal d6 (by omega)
  have e8 : c8 = Char.ofNat (48 + 2) := char_eq_of_digitVal d8 (by omega)
  have e9 : c9 = Char.ofNat (48 + 9) := char_eq_of_digitVal d9 (by omega)
  apply String.ext
  show s.toList = _
  rw [hl, e0, e1, e2, e3, e5, e6, e8, e9]

theorem dim_yearRule {Y M D : Int} (hY0 : 0 ≤ Y) (hm1 : 1 ≤ M) (hm2 : M ≤ 12)
    (hD : D ≤ daysInMonth Y M) (hexc : ¬(Y = 0 ∧ M = 2 ∧ D = 29)) :
    D ≤ daysInMonth (if 0 ≤ Y && Y ≤ 99 then 1900 + Y else Y) M := by
  split
  · rename_i hcond
    simp only [Bool.and_eq_true, decide_eq_true_eq] at hcond
    by_cases hM2 : M = 2
    · subst hM2
      by_cases hY0v : Y = 0
      · subst hY0v
        have h29 : ¬(D = 29) := fun hD29 => hexc ⟨rfl, rfl, hD29⟩
        have ha : daysInMonth 0 2 = 29 := by decide
        have hb : daysInMonth (1900 + 0) 2 = 28 := by decide
        omega
      · rw [daysInMonth_shift (by omega) hcond.2]
        exact hD
    · rw [daysInMonth_indep _ Y hM2]
      exact hD
  · exact hD


theorem formatComponents_eq {y m d : Int} {p : Int × Int × Int}
    (h : jsMakeDate y m d = some p) :
    formatComponents y m d = renderEnUS p.1 p.2.1 p.2.2 := by
  unfold formatComponents
  rw [h]

theorem formatDate_overflow_rolls {s : String} (h : isDateShape s = true) :
    ∃ y m d : Int, jsMakeDate ((yearVal s : Nat) : Int) (((monthVal s : Nat) : Int) - 1)
        ((dayVal s : Nat) : Int) = some (y, m, d) ∧ formatDate s = renderEnUS y m d := by
  obtain ⟨hy9999, hmo99, hdv99, -⟩ := shape_component_facts h
  have hmk := jsMakeDate_some (y := ((yearVal s : Nat) : Int))
    (w := ((monthVal s : Nat) : Int) - 1) (d := ((dayVal s : Nat) : Int))
    (by positivity) (by exact_mod_cast hy9999)
    (by have h0 : (0:Int) ≤ ((monthVal s : Nat) : Int) := by positivity
        omega)
    (by have h99 : ((monthVal s : Nat) : Int) ≤ 99 := by exact_mod_cast hmo99
        omega)
    (by positivity) (by exact_mod_cast hdv99)
  have hfc := formatComponents_eq hmk
  exact ⟨_, _, _, by rw [hmk], by rw [formatDate_shaped h]; exact hfc⟩
theorem formatComponents_cases (y m d : Int) :
    formatComponents y m d = "Invalid Date" ∨
      ∃ a b c : Int, formatComponents y m d = renderEnUS a b c := by
  unfold formatComponents
  generalize jsMakeDate y m d = o
  cases o with
  | none => left; rfl
  | some p =>
    obtain ⟨a, b, c⟩ := p
    right
    exact ⟨a, b, c, rfl⟩

/-! The claim theorems about formatDate. -/

/-- C1 counterexample: "0000-02-29" is a valid calendar date string in
YYYY-MM-DD form (year 0 is a leap year in the proleptic Gregorian
calendar, and the schema's date check accepts the string), yet formatDate
renders it as "Mar 01, 1900": the Date constructor maps a year argument
of 0 to 1900, which is not a leap year, so February 29 rolls over to
March 1 and the returned string's day-of-month component 01 differs from
the input's day component 29. -/
theorem formatDate_day_counterexample :
    zodStringDate "0000-02-29" = true ∧
      formatDate "0000-02-29" = "Mar 01, 1900" ∧
      dayVal "0000-02-29" = 29 ∧ outDayVal (formatDate "0000-02-29") = 1 :=
  ⟨by decide, by decide, by decide, by decide⟩

/-- C1 amended: for every valid calendar date string in YYYY-MM-DD form
except "0000-02-29", the numeric value of the day-of-month component of
the string formatDate returns equals the numeric value of the day
component of the input.  The model is timezone-free because the date is
built from local calendar fields and formatted by reading local calendar
fields back, so the host timezone offset cancels; the one exception
arises from the constructor's two-digit-year rule mapping year 0000 to
the non-leap year 1900. -/
theorem formatDate_preserves_day {s : String} (hv : zodStringDate s = true)
    (hne : ¬(s = "0000-02-29")) : outDayVal (formatDate s) = dayVal s := by
  have hsh : isDateShape s = true := by
    simp only [zodStringDate, Bool.and_eq_true] at hv
    exact hv.1
  have hcmp : dateComponentsOk s = true := by
    simp only [zodStringDate, Bool.and_eq_true] at hv
    exact hv.2
  simp only [dateComponentsOk, Bool.and_eq_true, decide_eq_true_eq] at hcmp
  obtain ⟨⟨⟨hm1, hm2⟩, hd1⟩, hd2⟩ := hcmp
  obtain ⟨hy9999, hmo99, hdv99, hrecon⟩ := shape_component_facts hsh
  have hexc : ¬(((yearVal s : Nat) : Int) = 0 ∧ ((monthVal s : Nat) : Int) = 2 ∧
      ((dayVal s : Nat) : Int) = 29) := by
    rintro ⟨ha, hb, hc⟩
    exact hne (hrecon (by exact_mod_cast ha) (by exact_mod_cast hb) (by exact_mod_cast hc))
  have hdim := dim_yearRule (Y := ((yearVal s : Nat) : Int)) (by positivity) hm1 hm2 hd2 hexc
  have hmk := jsMakeDate_valid_month (y := ((yearVal s : Nat) : Int))
    (m := ((monthVal s : Nat) : Int)) (d := ((dayVal s : Nat) : Int))
    (by positivity) (by exact_mod_cast hy9999) hm1 hm2 (by positivity)
    (by exact_mod_cast hdv99)
  rw [formatDate_shaped hsh]
  rw [dayNormalize_id hd1 hdim] at hmk
  unfold formatComponents
  rw [hmk]
  exact outDayVal_render hm1 hm2 (by omega)

/-- Witness for the amended C1 at a concrete valid date. -/
theorem formatDate_preserves_day_witness :
    outDayVal (formatDate "2023-06-12") = dayVal "2023-06-12" :=
  formatDate_preserves_day (by decide) (by decide)

/-- C9: for every YYYY-MM-DD-shaped input, including shapes whose month
or day component is out of range, formatDate does not produce the
"Invalid Date" rendering: it returns the formatted string of exactly the
civil date the date-construction primitive computes by its overflow rule;
in particular day 32 of January 2023 rolls into February 1, 2023. -/
theorem formatDate_overflow_behavior :
    (∀ s : String, isDateShape s = true →
      ∃ y m d : Int,
        jsMakeDate ((yearVal s : Nat) : Int) (((monthVal s : Nat) : Int) - 1)
            ((dayVal s : Nat) : Int) = some (y, m, d) ∧
          formatDate s = renderEnUS y m d) ∧
    formatDate "2023-01-32" = "Feb 01, 2023" :=
  ⟨fun _ h => formatDate_overflow_rolls h, by decide⟩

/-- Witness for C9 at a concrete out-of-range input (month 99, day 99). -/
theorem formatDate_overflow_behavior_witness :
    ∃ y m d : Int,
      jsMakeDate ((yearVal "2023-99-99" : Nat) : Int)
          (((monthVal "2023-99-99" : Nat) : Int) - 1)
          ((dayVal "2023-99-99" : Nat) : Int) = some (y, m, d) ∧
        formatDate "2023-99-99" = renderEnUS y m d :=
  formatDate_overflow_behavior.1 "2023-99-99" (by decide)

/-- C10: formatDate is total on all strings: every input yields either
the "Invalid Date" rendering or a rendered civil date, and no exception
is raised (the model is a total function; the Date constructor and
toLocaleDateString do not throw for number arguments); in particular the
degenerate inputs "hello" and "2023-06" yield "Invalid Date". -/
theorem formatDate_never_throws :
    (∀ s : String, formatDate s = "Invalid Date" ∨
      ∃ y m d : Int, formatDate s = renderEnUS y m d) ∧
    formatDate "hello" = "Invalid Date" ∧ formatDate "2023-06" = "Invalid Date" := by
  refine ⟨?_, by decide, by decide⟩
  intro s
  simp only [formatDate]
  generalize ((jsSplit s '-').map jsNumber).getD 0 none = o0
  generalize ((jsSplit s '-').map jsNumber).getD 1 none = o1
  generalize ((jsSplit s '-').map jsNumber).getD 2 none = o2
  cases o0 with
  | none => left; rfl
  | some y =>
    cases o1 with
    | none => left; rfl
    | some m =>
      cases o2 with
      | none => left; rfl
      | some d => exact formatComponents_cases y (m - 1) d

end Site

